import Mathlib

/-!
Verification of the aws-billing-to-slack report generator (`handler.py`).

The Python source is shallowly embedded: costs are modelled as rationals
(`ℚ`), Python lists as `List`, dicts with insertion order as association
lists, and operations that can raise (`max([])`, out-of-range indexing,
`l[i]` on an empty list) return `Option`, with `none` standing for an
uncaught exception.
-/

namespace AwsBilling

/-- The 7 sparkline glyphs, `sparks` in the source. -/
def sparks : List Char := ['▁', '▂', '▃', '▄', '▅', '▆', '▇']

/-- Source: `n_sparks = len(sparks) - 1`. -/
def n_sparks : Nat := sparks.length - 1

/-- Python `round` on a rational: round half to even (banker's rounding). -/
def pyRound (q : ℚ) : ℤ :=
  if q - ⌊q⌋ < 1/2 then ⌊q⌋
  else if 1/2 < q - ⌊q⌋ then ⌊q⌋ + 1
  else if ⌊q⌋ % 2 = 0 then ⌊q⌋ else ⌊q⌋ + 1

/-- Python index normalisation: a negative index counts from the end. -/
def pyNorm (len : Nat) (i : ℤ) : ℤ := if i < 0 then (len : ℤ) + i else i

/-- Python list indexing `l[i]`: negative indices count from the end,
out-of-range indices raise (modelled as `none`). -/
def pyIndex (l : List Char) (i : ℤ) : Option Char :=
  if h : 0 ≤ pyNorm l.length i ∧ (pyNorm l.length i).toNat < l.length then
    some (l.get ⟨(pyNorm l.length i).toNat, h.2⟩)
  else none

/-- The loop body of `sparkline`: for each datapoint compute
`scaled = 1 if upper == 0 else dp/upper` and append
`sparks[round(scaled * n_sparks)]` to the line. -/
def sparklineChars (upper : ℚ) : List ℚ → Option (List Char)
  | [] => some []
  | dp :: rest =>
    match pyIndex sparks (pyRound ((if upper = 0 then 1 else dp / upper) * (n_sparks : ℚ))) with
    | none => none
    | some c =>
      match sparklineChars upper rest with
      | none => none
      | some cs => some (c :: cs)

/-- Source `sparkline(datapoints)`: `upper = max(datapoints)` (raises on an
empty list), then the glyph accumulation loop. -/
def sparkline (datapoints : List ℚ) : Option String :=
  match datapoints.max? with
  | none => none
  | some upper => (sparklineChars upper datapoints).map String.mk

/-- Source `delta(costs)`: `((costs[-1]/costs[-2])-1)*100.0` when the list has
more than one element and both of the last two entries are at least 1,
otherwise 0. -/
def delta (costs : List ℚ) : ℚ :=
  if 1 < costs.length ∧ 1 ≤ costs.getD (costs.length - 1) 0
      ∧ 1 ≤ costs.getD (costs.length - 2) 0 then
    ((costs.getD (costs.length - 1) 0 / costs.getD (costs.length - 2) 0) - 1) * 100
  else 0

/-! ### String formatting helpers (Python format specs) -/

/-- Right alignment, as in the format specs `{...:>12,.2f}` and `{...:>8,.2f}`. -/
def rjust (s : String) (w : Nat) : String :=
  String.mk (List.replicate (w - s.length) ' ') ++ s

/-- Left alignment, the default string alignment of `{name:{w}}`. -/
def ljust (s : String) (w : Nat) : String :=
  s ++ String.mk (List.replicate (w - s.length) ' ')

/-- Centering, as in the header's format spec `{...:^{w}}`. -/
def centerStr (s : String) (w : Nat) : String :=
  String.mk (List.replicate ((w - s.length) / 2) ' ') ++ s
    ++ String.mk (List.replicate ((w - s.length) - (w - s.length) / 2) ' ')

/-- Two-digit zero-padded rendering of a value below 100. -/
def twoDigits (n : Nat) : String := (if n < 10 then "0" else "") ++ toString n

/-- Insert a comma after every complete group of three digits; the input is
the reversed digit string. -/
def commaGroupAux : List Char → List Char
  | d1 :: d2 :: d3 :: d4 :: rest => d1 :: d2 :: d3 :: ',' :: commaGroupAux (d4 :: rest)
  | l => l

/-- Comma thousands-grouping of a digit string. -/
def commaGroup (s : String) : String :=
  String.mk (commaGroupAux s.toList.reverse).reverse

/-- Python `f"{q:.2f}"`: fixed two decimal places. -/
def formatFixed2 (q : ℚ) : String :=
  (if pyRound (q * 100) < 0 then "-" else "")
    ++ toString ((pyRound (q * 100)).natAbs / 100) ++ "."
    ++ twoDigits ((pyRound (q * 100)).natAbs % 100)

/-- Python `f"{q:,.2f}"`: two decimals with comma-grouped integer part. -/
def formatComma2 (q : ℚ) : String :=
  (if pyRound (q * 100) < 0 then "-" else "")
    ++ commaGroup (toString ((pyRound (q * 100)).natAbs / 100)) ++ "."
    ++ twoDigits ((pyRound (q * 100)).natAbs % 100)

/-! ### Billing data model -/

/-- One group of a time bucket: the key `group['Keys'][0]` and the parsed
metric amount `float(group['Metrics'][cost_aggregation]['Amount'])`. -/
structure Group where
  key : String
  amount : ℚ
deriving DecidableEq

/-- One entry of `ResultsByTime`. -/
structure TimeBucket where
  groups : List Group
deriving DecidableEq

/-- One entry of `DimensionValueAttributes`. -/
structure DimensionAttr where
  value : String
  description : String
deriving DecidableEq

/-- A cost-and-usage API response. -/
structure ApiResponse where
  resultsByTime : List TimeBucket
  dimensionValueAttributes : List DimensionAttr
deriving DecidableEq

/-- Source `find_by_key(values, "Value", key)` specialised to the dimension
attribute lookup: the first element whose `Value` field equals the key. -/
def find_by_key (values : List DimensionAttr) (value : String) : Option DimensionAttr :=
  values.find? (fun item => item.value == value)

/-- Label of an account: the raw key, plus `" (<description>)"` when the
dimension lookup finds an attribute entry. -/
def labelOf (dims : List DimensionAttr) (key : String) : String :=
  match find_by_key dims key with
  | some dimension => key ++ " (" ++ dimension.description ++ ")"
  | none => key

/-- Append one cost to the series of `k` in an insertion-ordered association
list, modelling `defaultdict(list)`'s `dict[key].append(cost)`. -/
def dictAppend (d : List (String × List ℚ)) (k : String) (c : ℚ) :
    List (String × List ℚ) :=
  if d.any (fun p => p.1 == k) then
    d.map (fun p => if p.1 == k then (p.1, p.2 ++ [c]) else p)
  else d ++ [(k, [c])]

/-- Process one time bucket's groups into the cost dict. -/
def processBucket (dims : List DimensionAttr) (d : List (String × List ℚ))
    (b : TimeBucket) : List (String × List ℚ) :=
  b.groups.foldl (fun acc g => dictAppend acc (labelOf dims g.key) g.amount) d

/-- The monthly aggregation loop: buckets visited in reverse chronological
order with the `month_count > 1: continue` guard, so only the first two
visited (most recent) buckets are processed. -/
def buildAux (dims : List DimensionAttr) :
    Nat → List (String × List ℚ) → List TimeBucket → List (String × List ℚ)
  | _, d, [] => d
  | mc, d, b :: rest =>
    if 1 < mc then buildAux dims mc d rest
    else buildAux dims (mc + 1) (processBucket dims d b) rest

/-- `cost_per_month_dict` built from a monthly response. -/
def buildMonthlyDict (dims : List DimensionAttr) (resultsByTime : List TimeBucket) :
    List (String × List ℚ) :=
  buildAux dims 0 [] resultsByTime.reverse

/-- `cost_per_day_dict` built from a daily response: same reverse-order loop
but with no bucket limit. -/
def buildDailyDict (dims : List DimensionAttr) (resultsByTime : List TimeBucket) :
    List (String × List ℚ) :=
  resultsByTime.reverse.foldl (processBucket dims) []

/-- First-match lookup of a key's series; `[]` when the key is absent. -/
def lookupD : List (String × List ℚ) → String → List ℚ
  | [], _ => []
  | p :: rest, k => if p.1 = k then p.2 else lookupD rest k

/-- Python's substring containment `needle in hay`. -/
def containsSub (hay needle : List Char) : Bool :=
  (List.range (hay.length + 1)).any
    (fun i => (hay.drop i).take needle.length == needle)

/-- The personal/other split: keys containing `"personal-"` go to the first
dict, the rest to the second, preserving insertion order. -/
def splitPersonal :
    List (String × List ℚ) → List (String × List ℚ) × List (String × List ℚ)
  | [] => ([], [])
  | (key, value) :: rest =>
    let pr := splitPersonal rest
    if containsSub key.toList (("personal-").toList) then
      ((key, value) :: pr.1, pr.2)
    else (pr.1, (key, value) :: pr.2)

/-- Stable insertion for a descending sort by the first series entry,
modelling `sorted(items, key=lambda i: i[1][0], reverse=True)`. -/
def insertDesc (x : String × List ℚ) :
    List (String × List ℚ) → List (String × List ℚ)
  | [] => [x]
  | y :: ys => if y.2.headI < x.2.headI then x :: y :: ys else y :: insertDesc x ys

/-- Stable descending sort by `costs[0]`. -/
def sortByCost (entries : List (String × List ℚ)) : List (String × List ℚ) :=
  entries.foldr insertDesc []

/-- `longest_name_len = len(max(dict.keys(), key=len))`: `max` raises on an
empty dict (modelled as `none`). -/
def longestNameLen (d : List (String × List ℚ)) : Option Nat :=
  match d with
  | [] => none
  | _ :: _ => some ((d.map (fun p => p.1.length)).foldl max 0)

/-! ### Rendering -/

/-- `costs[1] if len(costs) > 1 else 0`. -/
def lastMonthCost (costs : List ℚ) : ℚ :=
  if h : 1 < costs.length then costs.get ⟨1, h⟩ else 0

/-- `cost_per_day_dict.get(name, [0])`. -/
def dailyGet (daily : List (String × List ℚ)) (name : String) : List ℚ :=
  match daily.find? (fun p => p.1 == name) with
  | some p => p.2
  | none => [0]

/-- One rendered data row:
`f"{name:{w}} | {costs[0]:>12,.2f}$ | {daily.get(name, [0])[0]:>8,.2f}$ | {last_month_cost:.2f}$\n"`.
The result is `none` when a `[0]` access raises. -/
def renderRow (w : Nat) (daily : List (String × List ℚ)) (name : String)
    (costs : List ℚ) : Option String :=
  match costs, dailyGet daily name with
  | c0 :: _, y :: _ =>
    some (ljust name w ++ " | " ++ rjust (formatComma2 c0) 12 ++ "$ | "
      ++ rjust (formatComma2 y) 8 ++ "$ | "
      ++ formatFixed2 (lastMonthCost costs) ++ "$\n")
  | _, _ => none

/-- `other_costs[i] += cost`; `none` models the IndexError when `i` is out of
range. -/
def listAddAt (l : List ℚ) (i : Nat) (c : ℚ) : Option (List ℚ) :=
  if h : i < l.length then some (l.set i (l.get ⟨i, h⟩ + c)) else none

/-- `for i, cost in enumerate(costs): other_costs[i] += cost`, starting at
index `i`. -/
def addEnumFrom : Nat → List ℚ → List ℚ → Option (List ℚ)
  | _, oc, [] => some oc
  | i, oc, c :: cs =>
    match listAddAt oc i c with
    | some oc2 => addEnumFrom (i + 1) oc2 cs
    | none => none

/-- The whole `enumerate` accumulation loop. -/
def addEnum (oc costs : List ℚ) : Option (List ℚ) := addEnumFrom 0 oc costs

/-- The data-row loop of `report_cost` over one sorted partition,
accumulating the buffer text and the running `other_costs` list. -/
def renderRows (cost_floor : ℚ) (w : Nat) (daily : List (String × List ℚ)) :
    List (String × List ℚ) → List ℚ → Option (String × List ℚ)
  | [], oc => some ("", oc)
  | (name, costs) :: rest, oc =>
    match costs with
    | [] => none
    | c0 :: _ =>
      if cost_floor < c0 ∨ cost_floor < lastMonthCost costs then
        match renderRow w daily name costs, renderRows cost_floor w daily rest oc with
        | some row, some bufoc => some (row ++ bufoc.1, bufoc.2)
        | _, _ => none
      else
        match addEnum oc costs with
        | some oc2 => renderRows cost_floor w daily rest oc2
        | none => none

/-- The header row
`f"{'AWS Accounts':^{w}} | Month-to-date | yesterday | {'Last month':>5}\n"`. -/
def headerLine (w : Nat) : String :=
  centerStr ("AWS Accounts") w ++ " | Month-to-date | yesterday | "
    ++ rjust ("Last month") 5 ++ "\n"

/-- The trailing Other row
`f"{'Other':{w}} | {other_costs[0]:>12,.2f}$ |           | {other_costs[1]:.2f}$\n"`
(the yesterday column is left blank). -/
def otherLine (w : Nat) (oc0 oc1 : ℚ) : String :=
  ljust ("Other") w ++ " | " ++ rjust (formatComma2 oc0) 12 ++ "$ |           | "
    ++ formatFixed2 oc1 ++ "$\n"

/-- Rendering of one partition: header, the data/other accumulation loop
starting from `other_costs = [0.0] * 2`, then the trailing Other row. -/
def renderPartition (cost_floor : ℚ) (w : Nat) (daily : List (String × List ℚ))
    (entries : List (String × List ℚ)) : Option String :=
  match renderRows cost_floor w daily entries [0, 0] with
  | some bufoc =>
    some (headerLine w ++ bufoc.1 ++ otherLine w (bufoc.2.getD 0 0) (bufoc.2.getD 1 0))
  | none => none

/-- Python slice `name[23:-1]`. -/
def pySlice23m1 (s : String) : String := (s.drop 23).dropRight 1

/-- The callout loop over the sorted personal partition: accounts with
`costs[0] > 400`, identifier recovered by `name[23:-1]`; `none` models the
IndexError on an empty series. -/
def calloutUsers : List (String × List ℚ) → Option (List String)
  | [] => some []
  | (name, costs) :: rest =>
    match costs with
    | [] => none
    | c0 :: _ =>
      match calloutUsers rest with
      | some l => some (if 400 < c0 then pySlice23m1 name :: l else l)
      | none => none

/-- The post-query portion of `report_cost`, parameterised by the two API
responses (the two `boto3` calls are external I/O outside the model). -/
def report_cost (cost_floor : ℚ) (monthly daily : ApiResponse) :
    Option (String × String × List String) :=
  let cost_per_month_dict :=
    buildMonthlyDict monthly.dimensionValueAttributes monthly.resultsByTime
  let cost_per_day_dict :=
    buildDailyDict daily.dimensionValueAttributes daily.resultsByTime
  let split := splitPersonal cost_per_month_dict
  let personal_most_expensive := sortByCost split.1
  let other_most_expensive := sortByCost split.2
  match longestNameLen cost_per_month_dict with
  | none => none
  | some longest_name_len =>
    match calloutUsers personal_most_expensive with
    | none => none
    | some callout_users =>
      match renderPartition cost_floor longest_name_len cost_per_day_dict
              personal_most_expensive,
            renderPartition cost_floor longest_name_len cost_per_day_dict
              other_most_expensive with
      | some personal_buffer, some other_buffer =>
        some (personal_buffer, other_buffer, callout_users)
      | _, _ => none

/-- A webhook HTTP response. -/
structure HttpResponse where
  status_code : Nat
  text : String
deriving DecidableEq

/-- `publish_slack`, with the webhook's two possible responses and the
current ISO weekday supplied as parameters; returns the list of
`(url, text)` payloads posted and the list of warnings logged. -/
def publish_slack (hook_url personal_buffer other_buffer : String)
    (callout_users : List String) (isoweekday : Nat) (resp1 resp2 : HttpResponse) :
    List (String × String) × List String :=
  let posts1 : List (String × String) :=
    [(hook_url, "```" ++ "\nPersonal Accounts\n\n" ++ personal_buffer
      ++ "\n\nOther Accounts\n\n" ++ other_buffer ++ "\n" ++ "```")]
  let warns1 : List String :=
    if resp1.status_code ≠ 200 then
      ["HTTP " ++ toString resp1.status_code ++ ": " ++ resp1.text]
    else []
  if callout_users ≠ [] ∧ isoweekday = 2 then
    (posts1 ++ [(hook_url, "Expensive People: "
        ++ String.intercalate (" ") (callout_users.map (fun user => "<@" ++ user ++ ">")))],
     warns1 ++ (if resp2.status_code ≠ 200 then
        ["HTTP " ++ toString resp2.status_code ++ ": " ++ resp2.text] else []))
  else (posts1, warns1)

/-- Concatenation of a list of rendered lines. -/
def joinStr : List String → String
  | [] => ""
  | s :: rest => s ++ joinStr rest

/-! ### Helper lemmas about the formatter -/

theorem foldl_max_spec (xs : List ℚ) : ∀ a : ℚ,
    (xs.foldl max a = a ∨ xs.foldl max a ∈ xs) ∧ a ≤ xs.foldl max a ∧
      ∀ y ∈ xs, y ≤ xs.foldl max a := by
  induction xs with
  | nil =>
    intro a
    exact ⟨Or.inl rfl, le_refl a, by intro y hy; cases hy⟩
  | cons b xs ih =>
    intro a
    obtain ⟨hmem, hle, hall⟩ := ih (max a b)
    have hfold : (b :: xs).foldl max a = xs.foldl max (max a b) := rfl
    refine ⟨?_, ?_, ?_⟩
    · rcases hmem with h | h
      · rcases max_choice a b with hc | hc
        · left; rw [hfold, h, hc]
        · right; rw [hfold, h, hc]; exact List.mem_cons_self b xs
      · right; rw [hfold]; exact List.mem_cons_of_mem b h
    · rw [hfold]; exact le_trans (le_max_left a b) hle
    · intro y hy
      rw [hfold]
      rcases List.mem_cons.mp hy with rfl | hy
      · exact le_trans (le_max_right a y) hle
      · exact hall y hy

theorem max?_spec (l : List ℚ) (u : ℚ) (h : l.max? = some u) :
    u ∈ l ∧ ∀ y ∈ l, y ≤ u := by
  cases l with
  | nil => exact absurd h (by simp)
  | cons x xs =>
    rw [List.max?_cons'] at h
    have hu : xs.foldl max x = u := Option.some.inj h
    obtain ⟨hmem, hle, hall⟩ := foldl_max_spec xs x
    subst hu
    constructor
    · rcases hmem with hm | hm
      · rw [hm]; exact List.mem_cons_self x xs
      · exact List.mem_cons_of_mem x hm
    · intro y hy
      rcases List.mem_cons.mp hy with rfl | hy
      · exact hle
      · exact hall y hy

theorem sparkline_eq_of_max (l : List ℚ) (u : ℚ) (h : l.max? = some u) :
    sparkline l = (sparklineChars u l).map String.mk := by
  unfold sparkline
  rw [h]

theorem pyRound_cases (q : ℚ) :
    pyRound q = ⌊q⌋ ∨ (pyRound q = ⌊q⌋ + 1 ∧ 1/2 ≤ q - ⌊q⌋) := by
  unfold pyRound
  split
  · exact Or.inl rfl
  · next h1 =>
    split
    · next h2 => exact Or.inr ⟨rfl, le_of_lt h2⟩
    · next h2 =>
      split
      · exact Or.inl rfl
      · exact Or.inr ⟨rfl, le_of_not_lt h1⟩

theorem pyRound_intCast (n : ℤ) : pyRound ((n : ℚ)) = n := by
  unfold pyRound
  rw [Int.floor_intCast]
  rw [if_pos (by rw [sub_self]; norm_num : ((n : ℚ)) - (n : ℚ) < 1/2)]

theorem pyRound_nonneg (q : ℚ) (h : 0 ≤ q) : 0 ≤ pyRound q := by
  have hfl : (0 : ℤ) ≤ ⌊q⌋ := Int.le_floor.mpr (by exact_mod_cast h)
  rcases pyRound_cases q with hc | ⟨hc, -⟩ <;> omega

theorem pyRound_le_six (q : ℚ) (h : q ≤ 6) : pyRound q ≤ 6 := by
  have hfl : ⌊q⌋ ≤ 6 := by
    have h6 : ⌊q⌋ ≤ ⌊(6 : ℚ)⌋ := Int.floor_le_floor h
    simpa using h6
  rcases pyRound_cases q with hc | ⟨hc, hhalf⟩
  · omega
  · have hql : (⌊q⌋ : ℚ) ≤ 11/2 := by linarith
    have hlt : ⌊q⌋ < 6 := by
      by_contra hcon
      push_neg at hcon
      have : (6 : ℚ) ≤ (⌊q⌋ : ℚ) := by exact_mod_cast hcon
      linarith
    omega

theorem pyIndex_in_range (i : ℤ) (h0 : 0 ≤ i) (h6 : i ≤ 6) :
    ∃ c, pyIndex sparks i = some c ∧ c ∈ sparks := by
  have hneg : ¬ i < 0 := not_lt.mpr h0
  have hj : pyNorm sparks.length i = i := if_neg hneg
  have hlt : i.toNat < sparks.length := by
    simp only [sparks, List.length_cons, List.length_nil]
    omega
  have hcond : 0 ≤ pyNorm sparks.length i
      ∧ (pyNorm sparks.length i).toNat < sparks.length := by
    rw [hj]; exact ⟨h0, hlt⟩
  unfold pyIndex
  rw [dif_pos hcond]
  exact ⟨_, rfl, List.get_mem _ _ hcond.2⟩

theorem sparklineChars_cons (u dp : ℚ) (rest : List ℚ) :
    sparklineChars u (dp :: rest) =
      match pyIndex sparks (pyRound ((if u = 0 then 1 else dp / u) * (n_sparks : ℚ))) with
      | none => none
      | some c =>
        match sparklineChars u rest with
        | none => none
        | some cs => some (c :: cs) := rfl

theorem sparklineChars_zero (l : List ℚ) :
    sparklineChars 0 l = some (List.replicate l.length '▇') := by
  induction l with
  | nil => rfl
  | cons dp rest ih =>
    have hglyph : pyIndex sparks
        (pyRound ((if (0:ℚ) = 0 then (1:ℚ) else dp / 0) * (n_sparks : ℚ))) = some '▇' := by
      rw [if_pos rfl]
      have h1 : ((1:ℚ) * (n_sparks : ℚ)) = ((6:ℤ) : ℚ) := by norm_num [n_sparks, sparks]
      rw [h1, pyRound_intCast]
      decide
    rw [sparklineChars_cons, hglyph]
    simp only [ih, List.length_cons, List.replicate_succ]

theorem sparklineChars_total (u : ℚ) (l : List ℚ)
    (h : ∀ dp ∈ l, ∃ c,
      pyIndex sparks (pyRound ((if u = 0 then 1 else dp / u) * (n_sparks : ℚ))) = some c
        ∧ c ∈ sparks) :
    ∃ cs, sparklineChars u l = some cs ∧ cs.length = l.length ∧
      ∀ c ∈ cs, c ∈ sparks := by
  induction l with
  | nil => exact ⟨[], rfl, rfl, by intro c hc; cases hc⟩
  | cons dp rest ih =>
    obtain ⟨c, hc, hcmem⟩ := h dp (List.mem_cons_self dp rest)
    obtain ⟨cs, hcs, hlen, hall⟩ := ih (fun x hx => h x (List.mem_cons_of_mem _ hx))
    refine ⟨c :: cs, ?_, by rw [List.length_cons, List.length_cons, hlen], ?_⟩
    · rw [sparklineChars_cons, hc]
      simp only [hcs]
    · intro x hx
      rcases List.mem_cons.mp hx with rfl | hx
      · exact hcmem
      · exact hall x hx

/-! ### Claims about the formatter -/

/-- C6: `delta` returns `((last / second_to_last) - 1) * 100` exactly when the
sequence has at least two entries and both of the last two entries are at
least 1, and 0 otherwise; in particular `delta([]) = 0`, `delta([x]) = 0`,
`delta([0.5, 2]) = 0`, `delta([2, 4]) = 100`, `delta([4, 2]) = -50`. -/
theorem claim_C6 :
    (∀ costs : List ℚ, 2 ≤ costs.length →
      1 ≤ costs.getD (costs.length - 1) 0 → 1 ≤ costs.getD (costs.length - 2) 0 →
      delta costs =
        ((costs.getD (costs.length - 1) 0 / costs.getD (costs.length - 2) 0) - 1) * 100)
    ∧ (∀ costs : List ℚ,
        ¬ (2 ≤ costs.length ∧ 1 ≤ costs.getD (costs.length - 1) 0
            ∧ 1 ≤ costs.getD (costs.length - 2) 0) →
        delta costs = 0)
    ∧ delta [] = 0 ∧ (∀ x : ℚ, delta [x] = 0)
    ∧ delta [1/2, 2] = 0 ∧ delta [2, 4] = 100 ∧ delta [4, 2] = -50 := by
  refine ⟨?_, ?_, ?_, ?_, ?_, ?_, ?_⟩
  · intro costs hlen h1 h2
    unfold delta
    rw [if_pos ⟨hlen, h1, h2⟩]
  · intro costs hnot
    unfold delta
    rw [if_neg (fun hcon => hnot ⟨hcon.1, hcon.2.1, hcon.2.2⟩)]
  · rfl
  · intro x
    unfold delta
    rw [if_neg]
    intro hcon
    exact absurd hcon.1 (by norm_num)
  · unfold delta
    rw [if_neg]
    intro hcon
    have h2 : ¬ ((1:ℚ) ≤ [(1:ℚ)/2, 2].getD 0 0) := by norm_num
    exact h2 hcon.2.2
  · unfold delta
    rw [if_pos (by norm_num : 1 < ([(2:ℚ), 4]).length
      ∧ 1 ≤ ([(2:ℚ), 4]).getD (([(2:ℚ), 4]).length - 1) 0
      ∧ 1 ≤ ([(2:ℚ), 4]).getD (([(2:ℚ), 4]).length - 2) 0)]
    norm_num
  · unfold delta
    rw [if_pos (by norm_num : 1 < ([(4:ℚ), 2]).length
      ∧ 1 ≤ ([(4:ℚ), 2]).getD (([(4:ℚ), 2]).length - 1) 0
      ∧ 1 ≤ ([(4:ℚ), 2]).getD (([(4:ℚ), 2]).length - 2) 0)]
    norm_num

/-- Witness for C6: the general branch of `claim_C6` evaluated at `[2, 4]`. -/
theorem claim_C6_witness :
    delta [2, 4] = ((([(2:ℚ), 4].getD ([(2:ℚ), 4].length - 1) 0)
      / ([(2:ℚ), 4].getD ([(2:ℚ), 4].length - 2) 0)) - 1) * 100 :=
  claim_C6.1 [2, 4] (by norm_num) (by norm_num) (by norm_num)

/-- C7 counterexample: with all-zero input the code maps every value to the
HIGHEST glyph (because `scaled` is set to 1 when the maximum is 0, so the
glyph index is `round(6) = 6`), not the lowest glyph that the claim
states. -/
theorem claim_C7_counterexample :
    sparkline [0, 0] = some (String.mk ['▇', '▇'])
      ∧ String.mk ['▇', '▇'] ≠ String.mk ['▁', '▁'] := by
  constructor
  · have hmax : ([(0:ℚ), 0]).max? = some 0 := by
      rw [List.max?_cons']
      simp
    rw [sparkline_eq_of_max _ _ hmax, sparklineChars_zero]
    rfl
  · decide

/-- C7 amended: for every non-empty all-zero sequence, `sparkline` maps every
element to the HIGHEST of the 7 glyphs, producing a string consisting
entirely of the highest glyph. -/
theorem claim_C7_amended (l : List ℚ) (h1 : l ≠ []) (h2 : ∀ x ∈ l, x = 0) :
    sparkline l = some (String.mk (List.replicate l.length '▇')) := by
  obtain ⟨x, xs, rfl⟩ := List.exists_cons_of_ne_nil h1
  have hx : x = 0 := h2 x (List.mem_cons_self x xs)
  subst hx
  have hfold : xs.foldl max (0 : ℚ) = 0 := by
    obtain ⟨hmem, -, -⟩ := foldl_max_spec xs (0 : ℚ)
    rcases hmem with hm | hm
    · exact hm
    · exact h2 _ (List.mem_cons_of_mem 0 hm)
  have hmax : ((0:ℚ) :: xs).max? = some 0 := by
    rw [List.max?_cons', hfold]
  rw [sparkline_eq_of_max _ _ hmax, sparklineChars_zero]
  rfl

/-- Witness for C7 amended: evaluated at `[0, 0]`. -/
theorem claim_C7_amended_witness :
    sparkline [0, 0] = some (String.mk (List.replicate ([(0:ℚ), 0].length) '▇')) :=
  claim_C7_amended [0, 0] (by decide) (by decide)

/-- C8 counterexample: on the numeric input `[-7, 1]` the glyph index is
`round(-7 * 6) = -42`, out of range even for Python's negative indexing, so
`sparkline` raises (modelled as `none`) instead of returning a string; the
claim fails for sequences with negative entries. -/
theorem claim_C8_counterexample : sparkline [-7, 1] = none := by
  have hmax : ([(-7:ℚ), 1]).max? = some 1 := by
    rw [List.max?_cons']
    norm_num [List.foldl_cons, List.foldl_nil]
  rw [sparkline_eq_of_max _ _ hmax]
  have hglyph : pyIndex sparks
      (pyRound ((if (1:ℚ) = 0 then (1:ℚ) else (-7) / 1) * (n_sparks : ℚ))) = none := by
    have harg : ((if (1:ℚ) = 0 then (1:ℚ) else (-7) / 1) * (n_sparks : ℚ))
        = (((-42:ℤ)) : ℚ) := by
      rw [if_neg (by norm_num : ¬ (1:ℚ) = 0)]
      norm_num [n_sparks, sparks]
    rw [harg, pyRound_intCast]
    decide
  rw [sparklineChars_cons, hglyph]
  rfl

/-- C8 amended: for every non-empty sequence of NON-NEGATIVE numbers,
`sparkline` returns (without error) a string of equal length whose
characters are all drawn from the 7-glyph alphabet. -/
theorem claim_C8_amended (l : List ℚ) (h1 : l ≠ []) (h2 : ∀ x ∈ l, 0 ≤ x) :
    ∃ s, sparkline l = some s ∧ s.length = l.length ∧
      ∀ c ∈ s.toList, c ∈ sparks := by
  obtain ⟨x, xs, rfl⟩ := List.exists_cons_of_ne_nil h1
  obtain ⟨u, hu⟩ : ∃ u, (x :: xs).max? = some u := ⟨_, List.max?_cons'⟩
  obtain ⟨humem, hall⟩ := max?_spec _ _ hu
  have hstep : ∀ dp ∈ x :: xs, ∃ c,
      pyIndex sparks (pyRound ((if u = 0 then 1 else dp / u) * (n_sparks : ℚ))) = some c
        ∧ c ∈ sparks := by
    intro dp hdp
    by_cases hu0 : u = 0
    · have harg : ((if u = 0 then (1:ℚ) else dp / u) * (n_sparks : ℚ)) = ((6:ℤ) : ℚ) := by
        rw [if_pos hu0]
        norm_num [n_sparks, sparks]
      rw [harg, pyRound_intCast]
      exact pyIndex_in_range 6 (by norm_num) (by norm_num)
    · have hupos : 0 < u := lt_of_le_of_ne (h2 u humem) (Ne.symm hu0)
      have hdp0 : 0 ≤ dp := h2 dp hdp
      have hdpu : dp ≤ u := hall dp hdp
      have hscaled0 : (0 : ℚ) ≤ dp / u := div_nonneg hdp0 (le_of_lt hupos)
      have hscaled1 : dp / u ≤ 1 := (div_le_one hupos).mpr hdpu
      have hns : ((n_sparks : ℚ)) = 6 := by norm_num [n_sparks, sparks]
      have harg : ((if u = 0 then (1:ℚ) else dp / u) * (n_sparks : ℚ)) = (dp / u) * 6 := by
        rw [if_neg hu0, hns]
      rw [harg]
      refine pyIndex_in_range _ (pyRound_nonneg _ ?_) (pyRound_le_six _ ?_)
      · exact mul_nonneg hscaled0 (by norm_num)
      · linarith
  obtain ⟨cs, hcs, hlen, hmem⟩ := sparklineChars_total u (x :: xs) hstep
  refine ⟨String.mk cs, ?_, ?_, ?_⟩
  · rw [sparkline_eq_of_max _ _ hu, hcs, Option.map_some']
  · simpa [String.length] using hlen
  · simpa [String.toList] using hmem

/-- Witness for C8 amended: evaluated at `[0, 3]`. -/
theorem claim_C8_amended_witness :
    ∃ s, sparkline [0, 3] = some s ∧ s.length = [(0:ℚ), 3].length ∧
      ∀ c ∈ s.toList, c ∈ sparks :=
  claim_C8_amended [0, 3] (by decide) (by decide)

/-! ### Helper lemmas about the aggregator -/

theorem calloutUsers_eq (entries : List (String × List ℚ))
    (h : ∀ p ∈ entries, p.2 ≠ ([] : List ℚ)) :
    calloutUsers entries =
      some ((entries.filter (fun p => decide ((400:ℚ) < p.2.headI))).map
        (fun p => pySlice23m1 p.1)) := by
  induction entries with
  | nil => rfl
  | cons e rest ih =>
    obtain ⟨name, costs⟩ := e
    obtain ⟨c0, ctail, rfl⟩ :=
      List.exists_cons_of_ne_nil (h _ (List.mem_cons_self _ _))
    have ihr := ih (fun p hp => h p (List.mem_cons_of_mem _ hp))
    by_cases h4 : (400:ℚ) < c0
    · simp [calloutUsers, ihr, List.filter_cons, h4]
    · simp [calloutUsers, ihr, List.filter_cons, h4]

theorem splitPersonal_fst (d : List (String × List ℚ)) :
    (splitPersonal d).1
      = d.filter (fun p => containsSub p.1.toList (("personal-").toList)) := by
  induction d with
  | nil => rfl
  | cons e rest ih =>
    obtain ⟨k, v⟩ := e
    by_cases hk : containsSub k.toList (("personal-").toList)
    · have h1 : splitPersonal ((k, v) :: rest)
          = ((k, v) :: (splitPersonal rest).1, (splitPersonal rest).2) := by
        simp only [splitPersonal]
        rw [if_pos hk]
      rw [h1]
      show (k, v) :: (splitPersonal rest).1 = _
      rw [ih, List.filter_cons,
        if_pos (show (fun p : String × List ℚ =>
          containsSub p.1.toList (("personal-").toList)) (k, v) = true from hk)]
    · have h1 : splitPersonal ((k, v) :: rest)
          = ((splitPersonal rest).1, (k, v) :: (splitPersonal rest).2) := by
        simp only [splitPersonal]
        rw [if_neg hk]
      rw [h1]
      show (splitPersonal rest).1 = _
      rw [ih, List.filter_cons,
        if_neg (show ¬ (fun p : String × List ℚ =>
          containsSub p.1.toList (("personal-").toList)) (k, v) = true from hk)]

theorem buildAux_stop (dims : List DimensionAttr) (l : List TimeBucket)
    (d : List (String × List ℚ)) (mc : Nat) (h : 1 < mc) :
    buildAux dims mc d l = d := by
  induction l with
  | nil => rfl
  | cons b rest ih => simp [buildAux, if_pos h, ih]

theorem buildAux_take_two (dims : List DimensionAttr) (l : List TimeBucket)
    (d : List (String × List ℚ)) :
    buildAux dims 0 d l = (l.take 2).foldl (processBucket dims) d := by
  match l with
  | [] => rfl
  | [b] => simp [buildAux, List.take, List.foldl]
  | b1 :: b2 :: rest =>
    have h1 : buildAux dims 0 d (b1 :: b2 :: rest)
        = buildAux dims 2 (processBucket dims (processBucket dims d b1) b2) rest := by
      simp [buildAux]
    rw [h1, buildAux_stop dims rest _ 2 (by omega)]
    simp [List.take, List.foldl]

theorem buildMonthly_eq_take (dims : List DimensionAttr) (res : List TimeBucket) :
    buildMonthlyDict dims res = (res.reverse.take 2).foldl (processBucket dims) [] := by
  unfold buildMonthlyDict
  exact buildAux_take_two dims res.reverse []

theorem buildMonthly_lastTwo (dims : List DimensionAttr) (res : List TimeBucket) :
    buildMonthlyDict dims res = buildMonthlyDict dims (res.drop (res.length - 2)) := by
  rw [buildMonthly_eq_take, buildMonthly_eq_take]
  congr 1
  rw [List.reverse_drop, List.take_take]
  rcases le_or_lt 2 res.length with h | h
  · have h2 : res.length - (res.length - 2) = 2 := by omega
    rw [h2]
    simp
  · have h2 : res.length - (res.length - 2) = res.length := by omega
    rw [h2]
    have hlen : res.reverse.length ≤ res.length := by
      rw [List.length_reverse]
    rw [List.take_of_length_le (le_trans hlen (by omega)),
      List.take_of_length_le (by rw [List.length_reverse]; omega)]

theorem foldl_empty_buckets (dims : List DimensionAttr) (bs : List TimeBucket) :
    ∀ d, (∀ b ∈ bs, b.groups = []) → bs.foldl (processBucket dims) d = d := by
  induction bs with
  | nil => intro d _; rfl
  | cons b rest ih =>
    intro d h
    have hb : processBucket dims d b = d := by
      rw [processBucket, h b (List.mem_cons_self _ _)]
      rfl
    rw [List.foldl_cons, hb]
    exact ih d (fun x hx => h x (List.mem_cons_of_mem _ hx))

theorem lookupD_map_update (d : List (String × List ℚ)) (k : String) (c : ℚ)
    (hany : d.any (fun p => p.1 == k)) :
    lookupD (d.map (fun p => if p.1 == k then (p.1, p.2 ++ [c]) else p)) k
      = lookupD d k ++ [c] := by
  induction d with
  | nil => simp at hany
  | cons p rest ih =>
    simp only [beq_iff_eq] at ih
    by_cases hpk : p.1 = k
    · simp [lookupD, hpk]
    · have hrest : rest.any (fun p => p.1 == k) = true := by
        rw [List.any_cons, Bool.or_eq_true] at hany
        rcases hany with hh | ht
        · exact absurd (by simpa using hh) hpk
        · exact ht
      simp [lookupD, hpk, ih hrest]

theorem lookupD_append_new (d : List (String × List ℚ)) (k : String) (c : ℚ)
    (hnone : ¬ d.any (fun p => p.1 == k)) :
    lookupD (d ++ [(k, [c])]) k = lookupD d k ++ [c] := by
  induction d with
  | nil => simp [lookupD]
  | cons p rest ih =>
    have hpk : ¬ p.1 = k := by
      intro he
      exact hnone (by simp [List.any_cons, he])
    have hrest : ¬ rest.any (fun p => p.1 == k) := by
      intro hr
      exact hnone (by simp [List.any_cons, hr])
    simp [lookupD, hpk, ih hrest]

theorem lookupD_dictAppend_self (d : List (String × List ℚ)) (k : String) (c : ℚ) :
    lookupD (dictAppend d k c) k = lookupD d k ++ [c] := by
  unfold dictAppend
  by_cases hany : d.any (fun p => p.1 == k)
  · rw [if_pos hany]
    exact lookupD_map_update d k c hany
  · rw [if_neg hany]
    exact lookupD_append_new d k c hany

theorem lookupD_map_ne (d : List (String × List ℚ)) (k k2 : String) (c : ℚ)
    (hne : k2 ≠ k) :
    lookupD (d.map (fun p => if p.1 == k then (p.1, p.2 ++ [c]) else p)) k2
      = lookupD d k2 := by
  induction d with
  | nil => rfl
  | cons p rest ih =>
    simp only [beq_iff_eq] at ih
    by_cases hpk : p.1 = k
    · have hp2 : ¬ p.1 = k2 := by
        rw [hpk]
        exact fun h => hne h.symm
      have hk2 : ¬ k = k2 := fun h => hne h.symm
      simp [lookupD, hpk, hp2, hk2, ih]
    · simp [lookupD, hpk, ih]

theorem lookupD_append_ne (d : List (String × List ℚ)) (k k2 : String) (c : ℚ)
    (hne : k2 ≠ k) :
    lookupD (d ++ [(k, [c])]) k2 = lookupD d k2 := by
  induction d with
  | nil =>
    have hk : ¬ k = k2 := fun h => hne h.symm
    simp [lookupD, hk]
  | cons p rest ih => simp [lookupD, ih]

theorem lookupD_dictAppend_ne (d : List (String × List ℚ)) (k k2 : String) (c : ℚ)
    (hne : k2 ≠ k) :
    lookupD (dictAppend d k c) k2 = lookupD d k2 := by
  unfold dictAppend
  by_cases hany : d.any (fun p => p.1 == k)
  · rw [if_pos hany]
    exact lookupD_map_ne d k k2 c hne
  · rw [if_neg hany]
    exact lookupD_append_ne d k k2 c hne

theorem lookupD_foldl_len (dims : List DimensionAttr) (gs : List Group) :
    ∀ (d : List (String × List ℚ)) (k : String),
      (lookupD (gs.foldl (fun acc g => dictAppend acc (labelOf dims g.key) g.amount) d) k).length
        = (lookupD d k).length + (gs.map (fun g => labelOf dims g.key)).count k := by
  induction gs with
  | nil =>
    intro d k
    simp
  | cons g rest ih =>
    intro d k
    rw [List.foldl_cons, ih]
    by_cases hk : labelOf dims g.key = k
    · rw [hk, lookupD_dictAppend_self]
      simp [List.count_cons, hk, List.length_append]
      omega
    · rw [lookupD_dictAppend_ne _ _ _ _ (fun h => hk h.symm)]
      simp [List.count_cons, hk]

theorem lookupD_processBucket_len (dims : List DimensionAttr)
    (d : List (String × List ℚ)) (b : TimeBucket) (k : String) :
    (lookupD (processBucket dims d b) k).length
      = (lookupD d k).length + (b.groups.map (fun g => labelOf dims g.key)).count k := by
  unfold processBucket
  exact lookupD_foldl_len dims b.groups d k

theorem monthly_series_len_le (dims : List DimensionAttr) (res : List TimeBucket)
    (h : ∀ b ∈ res, (b.groups.map (fun g => labelOf dims g.key)).Nodup) (k : String) :
    (lookupD (buildMonthlyDict dims res) k).length ≤ 2 := by
  rw [buildMonthly_eq_take]
  have hgen : ∀ (bs : List TimeBucket),
      (∀ b ∈ bs, (b.groups.map (fun g => labelOf dims g.key)).Nodup) →
      ∀ d, (lookupD (bs.foldl (processBucket dims) d) k).length
        ≤ (lookupD d k).length + bs.length := by
    intro bs
    induction bs with
    | nil =>
      intro _ d
      simp
    | cons b rest ih =>
      intro hn d
      rw [List.foldl_cons]
      have h1 := ih (fun x hx => hn x (List.mem_cons_of_mem _ hx)) (processBucket dims d b)
      have h2 := lookupD_processBucket_len dims d b k
      have hcount : (b.groups.map (fun g => labelOf dims g.key)).count k ≤ 1 :=
        List.nodup_iff_count_le_one.mp (hn b (List.mem_cons_self _ _)) k
      rw [List.length_cons]
      omega
  have h2 := hgen (res.reverse.take 2)
    (fun b hb => h b ((List.mem_reverse).mp (List.mem_of_mem_take hb))) []
  have h3 : (lookupD ([] : List (String × List ℚ)) k).length = 0 := rfl
  have hlen2 : (res.reverse.take 2).length ≤ 2 := by
    rw [List.length_take]
    omega
  omega

/-! ### Claims C4, C5, C9, C10 -/

/-- C4: the callout list is exactly the personal-partition accounts whose
index-0 cost strictly exceeds 400, each rendered by the Python slice
`name[23:-1]`; the personal partition consists exactly of the labels
containing `"personal-"`; and the second (mention) webhook message is sent
iff the callout list is non-empty and the ISO weekday equals 2. -/
theorem claim_C4 (entries : List (String × List ℚ))
    (h : ∀ p ∈ entries, p.2 ≠ ([] : List ℚ))
    (d : List (String × List ℚ)) (hook pb ob : String) (cu : List String)
    (wd : Nat) (r1 r2 : HttpResponse) :
    calloutUsers entries =
      some ((entries.filter (fun p => decide ((400:ℚ) < p.2.headI))).map
        (fun p => pySlice23m1 p.1))
    ∧ (splitPersonal d).1
        = d.filter (fun p => containsSub p.1.toList (("personal-").toList))
    ∧ ((publish_slack hook pb ob cu wd r1 r2).1.length = 2 ↔ cu ≠ [] ∧ wd = 2) := by
  refine ⟨calloutUsers_eq entries h, splitPersonal_fst d, ?_⟩
  by_cases hc : cu ≠ [] ∧ wd = 2
  · simp [publish_slack, hc]
  · simp [publish_slack, hc]

/-- Witness for C4: a personal account at cost 450 produces a callout entry
and the mention post goes out on weekday 2. -/
theorem claim_C4_witness :
    calloutUsers [(("personal-aaaaaaaaaaaaaa (who-1)"), [(450:ℚ)])] =
      some ((([(("personal-aaaaaaaaaaaaaa (who-1)"), [(450:ℚ)])]).filter
          (fun p => decide ((400:ℚ) < p.2.headI))).map
        (fun p => pySlice23m1 p.1))
    ∧ (splitPersonal [(("personal-aaaaaaaaaaaaaa (who-1)"), [(450:ℚ)])]).1
        = ([(("personal-aaaaaaaaaaaaaa (who-1)"), [(450:ℚ)])]).filter
          (fun p => containsSub p.1.toList (("personal-").toList))
    ∧ ((publish_slack ("u") ("p") ("o") [("who-1")] 2
          ⟨200, ("ok")⟩ ⟨200, ("ok")⟩).1.length = 2
        ↔ [("who-1")] ≠ [] ∧ 2 = 2) :=
  claim_C4 [(("personal-aaaaaaaaaaaaaa (who-1)"), [(450:ℚ)])] (by decide)
    [(("personal-aaaaaaaaaaaaaa (who-1)"), [(450:ℚ)])] ("u") ("p") ("o")
    [("who-1")] 2 ⟨200, ("ok")⟩ ⟨200, ("ok")⟩

/-- C5: an account present in the monthly map but absent from the daily map
renders without a lookup error and its yesterday column shows `0.00$`,
because `dict.get(name, [0])` defaults to the zero series. -/
theorem claim_C5 (w : Nat) (daily : List (String × List ℚ)) (name : String)
    (costs : List ℚ) (hc : costs ≠ ([] : List ℚ))
    (hd : daily.find? (fun p => p.1 == name) = none) :
    renderRow w daily name costs =
      some (ljust name w ++ " | " ++ rjust (formatComma2 costs.headI) 12 ++ "$ | "
        ++ "    0.00" ++ "$ | " ++ formatFixed2 (lastMonthCost costs) ++ "$\n") := by
  obtain ⟨c0, ctail, rfl⟩ := List.exists_cons_of_ne_nil hc
  have hget : dailyGet daily name = [0] := by
    unfold dailyGet
    rw [hd]
  have h0 : pyRound ((0:ℚ) * 100) = 0 := by
    have he : ((0:ℚ) * 100) = ((0:ℤ) : ℚ) := by norm_num
    rw [he, pyRound_intCast]
  have hfc : formatComma2 0 = "0.00" := by
    unfold formatComma2
    rw [h0]
    decide
  have hz : rjust (formatComma2 0) 8 = "    0.00" := by
    rw [hfc]
    decide
  unfold renderRow
  rw [hget]
  simp only [List.headI]
  rw [hz]

/-- Witness for C5: evaluated at a single-entry series with an empty daily
map. -/
theorem claim_C5_witness :
    renderRow 4 [] ("acct") [(25:ℚ)] =
      some (ljust ("acct") 4 ++ " | " ++ rjust (formatComma2 ([(25:ℚ)]).headI) 12 ++ "$ | "
        ++ "    0.00" ++ "$ | " ++ formatFixed2 (lastMonthCost [(25:ℚ)]) ++ "$\n") :=
  claim_C5 4 [] ("acct") [25] (by decide) (by rfl)

/-- C9: on a non-200 webhook response `publish_slack` logs a warning that
contains the status code and the body, never raises (it is a total
function into posts and warnings), and a non-200 on the report post does
not prevent the callout post: when the callout condition holds, two posts
are always made. -/
theorem claim_C9 (hook pb ob : String) (cu : List String) (wd : Nat)
    (r1 r2 : HttpResponse) :
    (r1.status_code ≠ 200 →
      ("HTTP " ++ toString r1.status_code ++ ": " ++ r1.text)
        ∈ (publish_slack hook pb ob cu wd r1 r2).2)
    ∧ (cu ≠ [] → wd = 2 → r2.status_code ≠ 200 →
      ("HTTP " ++ toString r2.status_code ++ ": " ++ r2.text)
        ∈ (publish_slack hook pb ob cu wd r1 r2).2)
    ∧ (cu ≠ [] → wd = 2 → (publish_slack hook pb ob cu wd r1 r2).1.length = 2) := by
  refine ⟨?_, ?_, ?_⟩
  · intro h1
    by_cases hc : cu ≠ [] ∧ wd = 2
    · simp [publish_slack, hc, h1]
    · simp [publish_slack, hc, h1]
  · intro hcu hwd h2
    simp [publish_slack, hcu, hwd, h2]
  · intro hcu hwd
    simp [publish_slack, hcu, hwd]

/-- Witness for C9: both posts fail with a 404; both warnings are logged and
both posts were attempted. -/
theorem claim_C9_witness :
    (404 ≠ 200 →
      ("HTTP " ++ toString (404:Nat) ++ ": " ++ ("nope"))
        ∈ (publish_slack ("u") ("p") ("o") [("x")] 2 ⟨404, ("nope")⟩ ⟨404, ("nope")⟩).2)
    ∧ ([("x")] ≠ [] → 2 = 2 → 404 ≠ 200 →
      ("HTTP " ++ toString (404:Nat) ++ ": " ++ ("nope"))
        ∈ (publish_slack ("u") ("p") ("o") [("x")] 2 ⟨404, ("nope")⟩ ⟨404, ("nope")⟩).2)
    ∧ ([("x")] ≠ [] → 2 = 2 →
      (publish_slack ("u") ("p") ("o") [("x")] 2 ⟨404, ("nope")⟩ ⟨404, ("nope")⟩).1.length = 2) :=
  claim_C9 ("u") ("p") ("o") [("x")] 2 ⟨404, ("nope")⟩ ⟨404, ("nope")⟩

/-- C10: if the two retained monthly buckets contain no groups, the monthly
dict is empty and `report_cost` fails (the `max` over the empty key set
raises), rather than returning an empty report; a non-empty monthly dict
is thus a precondition for normal return. -/
theorem claim_C10 (cost_floor : ℚ) (monthly daily : ApiResponse)
    (h : ∀ b ∈ monthly.resultsByTime.drop (monthly.resultsByTime.length - 2),
      b.groups = []) :
    buildMonthlyDict monthly.dimensionValueAttributes monthly.resultsByTime = []
    ∧ report_cost cost_floor monthly daily = none := by
  have hdict :
      buildMonthlyDict monthly.dimensionValueAttributes monthly.resultsByTime = [] := by
    rw [buildMonthly_lastTwo, buildMonthly_eq_take]
    apply foldl_empty_buckets
    intro b hb
    exact h b ((List.mem_reverse).mp (List.mem_of_mem_take hb))
  refine ⟨hdict, ?_⟩
  unfold report_cost
  rw [hdict]
  simp [splitPersonal, sortByCost, longestNameLen]

/-- Witness for C10: three buckets whose two most recent are empty; the old
bucket's group is dropped and the report fails. -/
theorem claim_C10_witness :
    buildMonthlyDict [] [⟨[⟨("a"), 5⟩]⟩, ⟨[]⟩, ⟨[]⟩] = []
    ∧ report_cost 20 ⟨[⟨[⟨("a"), 5⟩]⟩, ⟨[]⟩, ⟨[]⟩], []⟩ ⟨[], []⟩ = none :=
  claim_C10 20 ⟨[⟨[⟨("a"), 5⟩]⟩, ⟨[]⟩, ⟨[]⟩], []⟩ ⟨[], []⟩ (by decide)

/-- C2: the monthly dict depends only on the two most recent (last two)
buckets of the response — older buckets contribute nothing — and, provided
each bucket lists each labelled account at most once (as the API does),
every account's series has length at most 2. -/
theorem claim_C2 (dims : List DimensionAttr) (res : List TimeBucket) :
    buildMonthlyDict dims res = buildMonthlyDict dims (res.drop (res.length - 2))
    ∧ ((∀ b ∈ res, (b.groups.map (fun g => labelOf dims g.key)).Nodup) →
        ∀ k, (lookupD (buildMonthlyDict dims res) k).length ≤ 2) :=
  ⟨buildMonthly_lastTwo dims res, fun h k => monthly_series_len_le dims res h k⟩

/-- Witness for C2: a three-bucket response; the oldest bucket is dropped and
the series of account `"a"` keeps at most two entries. -/
theorem claim_C2_witness :
    (buildMonthlyDict [] [⟨[⟨("b"), 3⟩]⟩, ⟨[⟨("a"), 1⟩]⟩, ⟨[⟨("a"), 2⟩]⟩]
      = buildMonthlyDict []
          (([⟨[⟨("b"), 3⟩]⟩, ⟨[⟨("a"), 1⟩]⟩, ⟨[⟨("a"), 2⟩]⟩] : List TimeBucket).drop
            (([⟨[⟨("b"), 3⟩]⟩, ⟨[⟨("a"), 1⟩]⟩, ⟨[⟨("a"), 2⟩]⟩] :
                List TimeBucket).length - 2)))
    ∧ (lookupD (buildMonthlyDict []
        [⟨[⟨("b"), 3⟩]⟩, ⟨[⟨("a"), 1⟩]⟩, ⟨[⟨("a"), 2⟩]⟩]) ("a")).length ≤ 2 :=
  ⟨(claim_C2 [] [⟨[⟨("b"), 3⟩]⟩, ⟨[⟨("a"), 1⟩]⟩, ⟨[⟨("a"), 2⟩]⟩]).1,
   (claim_C2 [] [⟨[⟨("b"), 3⟩]⟩, ⟨[⟨("a"), 1⟩]⟩, ⟨[⟨("a"), 2⟩]⟩]).2 (by decide) ("a")⟩

/-- C3 evaluation at the failing input: two buckets, the older containing
account `"222"` (amount 30), the most recent containing only `"111"`
(amount 50). The code gives `"222"` the series `[30]`, so element 0 of the
series is the PRIOR month's amount — contradicting the claim (and the
source comment "even for sparse data we get a full list of costs") that
index 0 always denotes the most recent month. -/
theorem claim_C3_code_eval :
    buildMonthlyDict [] [⟨[⟨("222"), 30⟩]⟩, ⟨[⟨("111"), 50⟩]⟩]
      = [(("111"), [50]), (("222"), [30])]
    ∧ lookupD (buildMonthlyDict [] [⟨[⟨("222"), 30⟩]⟩, ⟨[⟨("111"), 50⟩]⟩]) ("222")
      = [30] := by
  constructor
  · rfl
  · rfl

/-! ### Helper lemmas for the row-rendering loop -/

theorem addEnum_pair1 (a b c0 : ℚ) : addEnum [a, b] [c0] = some [a + c0, b] := by
  simp [addEnum, addEnumFrom, listAddAt]

theorem addEnum_pair2 (a b c0 c1 : ℚ) :
    addEnum [a, b] [c0, c1] = some [a + c0, b + c1] := by
  simp [addEnum, addEnumFrom, listAddAt]

theorem dailyGet_cons (daily : List (String × List ℚ)) (name : String)
    (hd : ∀ p ∈ daily, p.2 ≠ ([] : List ℚ)) :
    ∃ y ys, dailyGet daily name = y :: ys := by
  unfold dailyGet
  rcases hfind : daily.find? (fun p => p.1 == name) with - | p
  · exact ⟨0, [], by rw [hfind]⟩
  · obtain ⟨y, ys, hys⟩ :=
      List.exists_cons_of_ne_nil (hd p (List.mem_of_find?_eq_some hfind))
    exact ⟨y, ys, by rw [hfind]; exact hys⟩

theorem renderRow_eq (w : Nat) (daily : List (String × List ℚ)) (name : String)
    (c0 : ℚ) (ctail : List ℚ) (y : ℚ) (ys : List ℚ)
    (hy : dailyGet daily name = y :: ys) :
    renderRow w daily name (c0 :: ctail) =
      some (ljust name w ++ " | " ++ rjust (formatComma2 c0) 12 ++ "$ | "
        ++ rjust (formatComma2 y) 8 ++ "$ | "
        ++ formatFixed2 (lastMonthCost (c0 :: ctail)) ++ "$\n") := by
  unfold renderRow
  rw [hy]

theorem renderRows_spec (cost_floor : ℚ) (w : Nat) (daily : List (String × List ℚ))
    (hd : ∀ p ∈ daily, p.2 ≠ ([] : List ℚ)) :
    ∀ (entries : List (String × List ℚ)) (a b : ℚ),
      (∀ p ∈ entries, p.2.length = 1 ∨ p.2.length = 2) →
      renderRows cost_floor w daily entries [a, b] =
        some (joinStr (entries.filterMap (fun p =>
            if cost_floor < p.2.headI ∨ cost_floor < lastMonthCost p.2 then
              renderRow w daily p.1 p.2
            else none)),
          [a + ((entries.filter (fun p =>
              !(decide (cost_floor < p.2.headI ∨ cost_floor < lastMonthCost p.2)))).map
              (fun p => p.2.headI)).sum,
           b + ((entries.filter (fun p =>
              !(decide (cost_floor < p.2.headI ∨ cost_floor < lastMonthCost p.2)))).map
              (fun p => p.2.getD 1 0)).sum]) := by
  intro entries
  induction entries with
  | nil =>
    intro a b _
    simp [renderRows, joinStr]
  | cons e rest ih =>
    intro a b h
    obtain ⟨name, costs⟩ := e
    have hlen := h (name, costs) (List.mem_cons_self _ _)
    have hrest := fun p hp => h p (List.mem_cons_of_mem _ hp)
    obtain ⟨y, ys, hy⟩ := dailyGet_cons daily name hd
    rcases costs with - | ⟨c0, ctail⟩
    · simp at hlen
    by_cases hq : cost_floor < c0 ∨ cost_floor < lastMonthCost (c0 :: ctail)
    · -- qualifying row
      rw [show renderRows cost_floor w daily ((name, c0 :: ctail) :: rest) [a, b]
          = match renderRow w daily name (c0 :: ctail),
              renderRows cost_floor w daily rest [a, b] with
            | some row, some bufoc => some (row ++ bufoc.1, bufoc.2)
            | _, _ => none from by
        rw [renderRows]
        rw [if_pos hq]]
      rw [renderRow_eq w daily name c0 ctail y ys hy, ih a b hrest]
      have hfa : (fun p : String × List ℚ =>
          if cost_floor < p.2.headI ∨ cost_floor < lastMonthCost p.2 then
            renderRow w daily p.1 p.2 else none) (name, c0 :: ctail)
          = some (ljust name w ++ " | " ++ rjust (formatComma2 c0) 12 ++ "$ | "
            ++ rjust (formatComma2 y) 8 ++ "$ | "
            ++ formatFixed2 (lastMonthCost (c0 :: ctail)) ++ "$\n") := by
        show (if cost_floor < (c0 :: ctail).headI ∨ cost_floor < lastMonthCost (c0 :: ctail)
            then renderRow w daily name (c0 :: ctail) else none) = _
        rw [if_pos (show cost_floor < (c0 :: ctail).headI
            ∨ cost_floor < lastMonthCost (c0 :: ctail) from hq)]
        exact renderRow_eq w daily name c0 ctail y ys hy
      have hfb : ¬ ((fun p : String × List ℚ =>
          !(decide (cost_floor < p.2.headI ∨ cost_floor < lastMonthCost p.2)))
            (name, c0 :: ctail) = true) := by
        show ¬ ((!(decide (cost_floor < (c0 :: ctail).headI
            ∨ cost_floor < lastMonthCost (c0 :: ctail)))) = true)
        rw [decide_eq_true (show cost_floor < (c0 :: ctail).headI
            ∨ cost_floor < lastMonthCost (c0 :: ctail) from hq)]
        simp
      have hfm : List.filterMap (fun p : String × List ℚ =>
            if cost_floor < p.2.headI ∨ cost_floor < lastMonthCost p.2 then
              renderRow w daily p.1 p.2 else none) ((name, c0 :: ctail) :: rest)
          = (ljust name w ++ " | " ++ rjust (formatComma2 c0) 12 ++ "$ | "
              ++ rjust (formatComma2 y) 8 ++ "$ | "
              ++ formatFixed2 (lastMonthCost (c0 :: ctail)) ++ "$\n")
            :: List.filterMap (fun p : String × List ℚ =>
              if cost_floor < p.2.headI ∨ cost_floor < lastMonthCost p.2 then
                renderRow w daily p.1 p.2 else none) rest :=
        List.filterMap_cons_some hfa
      have hfl : List.filter (fun p : String × List ℚ =>
            !(decide (cost_floor < p.2.headI ∨ cost_floor < lastMonthCost p.2)))
            ((name, c0 :: ctail) :: rest)
          = List.filter (fun p : String × List ℚ =>
              !(decide (cost_floor < p.2.headI ∨ cost_floor < lastMonthCost p.2))) rest :=
        List.filter_cons_of_neg hfb
      rw [hfm, hfl]
      rfl
    · -- row summed into Other
      have hadd : ∃ a2 b2, addEnum [a, b] (c0 :: ctail) = some [a2, b2]
          ∧ a2 = a + c0 ∧ b2 = b + (c0 :: ctail).getD 1 0 := by
        rcases ctail with - | ⟨c1, ctail2⟩
        · exact ⟨a + c0, b, addEnum_pair1 a b c0, rfl, by simp⟩
        · have h2 : ctail2 = [] := by
            rcases hlen with h1 | h1
            · exact absurd h1 (by simp only [List.length_cons]; omega)
            · simp only [List.length_cons] at h1
              have h0 : ctail2.length = 0 := by omega
              exact List.length_eq_zero.mp h0
          subst h2
          exact ⟨a + c0, b + c1, addEnum_pair2 a b c0 c1, rfl, by simp⟩
      obtain ⟨a2, b2, haddeq, ha2, hb2⟩ := hadd
      rw [show renderRows cost_floor w daily ((name, c0 :: ctail) :: rest) [a, b]
          = match addEnum [a, b] (c0 :: ctail) with
            | some oc2 => renderRows cost_floor w daily rest oc2
            | none => none from by
        rw [renderRows]
        rw [if_neg hq]]
      rw [haddeq]
      show renderRows cost_floor w daily rest [a2, b2] = _
      rw [ih a2 b2 hrest]
      subst ha2 hb2
      have hfa : (fun p : String × List ℚ =>
          if cost_floor < p.2.headI ∨ cost_floor < lastMonthCost p.2 then
            renderRow w daily p.1 p.2 else none) (name, c0 :: ctail) = none := by
        show (if cost_floor < (c0 :: ctail).headI ∨ cost_floor < lastMonthCost (c0 :: ctail)
            then renderRow w daily name (c0 :: ctail) else none) = none
        rw [if_neg (show ¬ (cost_floor < (c0 :: ctail).headI
            ∨ cost_floor < lastMonthCost (c0 :: ctail)) from hq)]
      have hfb : (fun p : String × List ℚ =>
          !(decide (cost_floor < p.2.headI ∨ cost_floor < lastMonthCost p.2)))
            (name, c0 :: ctail) = true := by
        show (!(decide (cost_floor < (c0 :: ctail).headI
            ∨ cost_floor < lastMonthCost (c0 :: ctail)))) = true
        rw [decide_eq_false (show ¬ (cost_floor < (c0 :: ctail).headI
            ∨ cost_floor < lastMonthCost (c0 :: ctail)) from hq)]
        rfl
      have hfm : List.filterMap (fun p : String × List ℚ =>
            if cost_floor < p.2.headI ∨ cost_floor < lastMonthCost p.2 then
              renderRow w daily p.1 p.2 else none) ((name, c0 :: ctail) :: rest)
          = List.filterMap (fun p : String × List ℚ =>
              if cost_floor < p.2.headI ∨ cost_floor < lastMonthCost p.2 then
                renderRow w daily p.1 p.2 else none) rest :=
        List.filterMap_cons_none hfa
      have hfl : List.filter (fun p : String × List ℚ =>
            !(decide (cost_floor < p.2.headI ∨ cost_floor < lastMonthCost p.2)))
            ((name, c0 :: ctail) :: rest)
          = (name, c0 :: ctail) :: List.filter (fun p : String × List ℚ =>
              !(decide (cost_floor < p.2.headI ∨ cost_floor < lastMonthCost p.2))) rest :=
        List.filter_cons_of_pos hfb
      rw [hfm, hfl, List.map_cons, List.sum_cons, List.map_cons, List.sum_cons]
      simp [add_assoc]

/-! ### Claim C1 -/

/-- C1: for a sorted monthly partition (well-formed: series of length 1 or 2,
daily series non-empty), an account gets an individual row iff its
month-to-date cost or its last-month cost (0 when the series is short)
strictly exceeds the $20 floor; all excluded accounts are summed into the
Other row column-wise (index-0 costs into month-to-date, index-1 costs into
last-month), and the Other row's yesterday column is blank. -/
theorem claim_C1 (w : Nat) (daily entries : List (String × List ℚ))
    (hd : ∀ p ∈ daily, p.2 ≠ ([] : List ℚ))
    (he : ∀ p ∈ entries, p.2.length = 1 ∨ p.2.length = 2) :
    renderPartition 20 w daily entries =
      some (headerLine w
        ++ joinStr (entries.filterMap (fun p =>
            if (20:ℚ) < p.2.headI ∨ (20:ℚ) < lastMonthCost p.2 then
              renderRow w daily p.1 p.2
            else none))
        ++ otherLine w
          (((entries.filter (fun p =>
              !(decide ((20:ℚ) < p.2.headI ∨ (20:ℚ) < lastMonthCost p.2)))).map
            (fun p => p.2.headI)).sum)
          (((entries.filter (fun p =>
              !(decide ((20:ℚ) < p.2.headI ∨ (20:ℚ) < lastMonthCost p.2)))).map
            (fun p => p.2.getD 1 0)).sum))
    ∧ ∀ s0 s1, ∃ pre post, otherLine w s0 s1 = pre ++ ("$ |           | " ++ post) := by
  constructor
  · have h := renderRows_spec 20 w daily hd entries 0 0 he
    unfold renderPartition
    rw [h]
    simp [zero_add]
  · intro s0 s1
    refine ⟨ljust ("Other") w ++ " | " ++ rjust (formatComma2 s0) 12,
      formatFixed2 s1 ++ "$\n", ?_⟩
    simp [otherLine, String.append_assoc]

/-- Witness for C1: a partition with two qualifying accounts and one summed
into Other, one account lacking daily data. -/
theorem claim_C1_witness :
    ∃ s, renderPartition 20 6 [(("aa"), [7])]
      [(("aa"), [25, 10]), (("bb"), [5]), (("cc"), [3, 30])] = some s :=
  ⟨_, (claim_C1 6 [(("aa"), [7])]
    [(("aa"), [25, 10]), (("bb"), [5]), (("cc"), [3, 30])]
    (by decide) (by decide)).1⟩

end AwsBilling
